import Mathlib

/-!
Verification of the FreeRTOS priority-inversion demo (`src/main.c`).

The demo's own code (task bodies, console dispatch, lock creation, the
startup checks and all timing constants) is embedded shallowly below.
The FreeRTOS kernel itself (mutex with priority inheritance, task
notifications, blocking take) is not part of the repository's sources;
those parts are modelled from the specification and are marked
`Modelled from the spec:` in their doc comments.
-/

namespace FreeRTOSDemo

/-! ### Compile-time constants, transcribed from src/main.c lines 11-23 -/

def USE_MUTEX : Bool := true

def tskIDLE_PRIORITY : Nat := 0

def PRIO_LOW : Nat := tskIDLE_PRIORITY + 1

def PRIO_MEDIUM : Nat := tskIDLE_PRIORITY + 2

def PRIO_HIGH : Nat := tskIDLE_PRIORITY + 3

def L_REPEAT_PERIOD_MS : Nat := 3000

def H_START_DELAY_MS : Nat := 150

def M_BURST_SLICE_ITER : Nat := 20000

def M_BURST_CYCLES : Nat := 50

def HOLD_DELAY_PER_CHAR_MS : Nat := 10

/-! ### Action-trace embedding of the task bodies -/

/-- Timeout argument of `xSemaphoreTake`: a finite tick count or
`portMAX_DELAY` (block indefinitely). -/
inductive Timeout where
  | ticks (n : Nat)
  | portMAX_DELAY
deriving DecidableEq

/-- One observable step of a demo task body, read off the C source:
lock take/give, a `vTaskDelay` of some many milliseconds, a `putchar`,
a CPU-burning busy loop, a `logf` call, or a notification wait
(`ulTaskNotifyTake`, which no task in this demo actually performs). -/
inductive Action where
  | take (tm : Timeout)
  | give
  | delay (ms : Nat)
  | putc (c : Char)
  | busy
  | logMsg
  | awaitNotify
deriving DecidableEq

/-- The message printed by task L while holding the lock
(src/main.c line 112). -/
def bigMsg : String :=
  "L: Using the resource very SLOWLY (simulating long critical section) ..."

/-- The message printed by task H while holding the lock
(src/main.c line 147). -/
def hMsg : String := "H: quick critical section done."

/-- `use_shared_resource` (src/main.c lines 95-106): prints `msg`
character by character, sleeping `HOLD_DELAY_PER_CHAR_MS + 100`
milliseconds after each character, then prints a newline. -/
def use_shared_resource (msg : String) : List Action :=
  (msg.toList.map
    (fun c => [Action.putc c, Action.delay (HOLD_DELAY_PER_CHAR_MS + 100)])).flatten
  ++ [Action.putc '\n']

/-- One iteration of `vTaskL`'s infinite loop (src/main.c lines 113-127):
take with infinite timeout, log, sleep 100 ms, slow resource use, log,
give, sleep `L_REPEAT_PERIOD_MS`. -/
def vTaskL_body : List Action :=
  [Action.take Timeout.portMAX_DELAY, Action.logMsg, Action.delay 100]
  ++ use_shared_resource bigMsg
  ++ [Action.logMsg, Action.give, Action.delay L_REPEAT_PERIOD_MS]

/-- One iteration of `vTaskH`'s infinite loop (src/main.c lines 136-154):
take with infinite timeout, log the measured wait, quick resource use,
give, log, sleep 1500 ms. -/
def vTaskH_body : List Action :=
  [Action.take Timeout.portMAX_DELAY, Action.logMsg]
  ++ use_shared_resource hMsg
  ++ [Action.give, Action.logMsg, Action.delay 1500]

/-- `vTaskH`'s one-time startup delay before its loop
(src/main.c line 135). -/
def vTaskH_startDelay : Action := Action.delay H_START_DELAY_MS

/-- One iteration of `vTaskM`'s infinite loop (src/main.c lines 165-181):
`M_BURST_CYCLES` slices of busy work each followed by a 1 ms sleep,
then a 10 ms pause. -/
def vTaskM_body : List Action :=
  (List.replicate M_BURST_CYCLES [Action.busy, Action.delay 1]).flatten
  ++ [Action.delay 10]

/-- Trace of `n` iterations of task M's loop. -/
def traceM (n : Nat) : List Action := (List.replicate n vTaskM_body).flatten

/-- Trace of task H: startup delay followed by `n` loop iterations. -/
def traceH (n : Nat) : List Action :=
  vTaskH_startDelay :: (List.replicate n vTaskH_body).flatten

/-! ### Derived measures over action traces -/

/-- Total simulated milliseconds slept by the `delay` actions of a trace. -/
def sumDelays : List Action → Nat
  | [] => 0
  | Action.delay n :: rest => n + sumDelays rest
  | _ :: rest => sumDelays rest

/-- The actions after the first `take` of a trace. -/
def afterTakeActs : List Action → List Action
  | [] => []
  | Action.take _ :: rest => rest
  | _ :: rest => afterTakeActs rest

/-- The prefix of a trace up to (excluding) the first `give`. -/
def beforeGive : List Action → List Action
  | [] => []
  | Action.give :: _ => []
  | a :: rest => a :: beforeGive rest

/-- Simulated time the lock is held in one loop iteration: the delays
performed between the first `take` and the following `give`. -/
def lockHoldDuration (l : List Action) : Nat :=
  sumDelays (beforeGive (afterTakeActs l))

/-- Does an action touch the shared lock? -/
def isLockOp : Action → Bool
  | Action.take _ => true
  | Action.give => true
  | _ => false

/-- Does a trace contain any take or give on the shared lock? -/
def usesLock (l : List Action) : Bool := l.any isLockOp

/-- Is an action a pure CPU burst or a sleep? -/
def cpuOrSleep : Action → Bool
  | Action.busy => true
  | Action.delay _ => true
  | _ => false

/-- Does a trace contain a notification-wait call? -/
def isAwait : Action → Bool
  | Action.awaitNotify => true
  | _ => false

/-- Whether a trace contains a notification-wait call. -/
def hasAwait (l : List Action) : Bool := l.any isAwait

/-- The timeouts of all `take` calls in a trace. -/
def takeTimeouts (l : List Action) : List Timeout :=
  l.filterMap (fun a => match a with | Action.take tm => some tm | _ => none)

/-! ### Console control dispatch, from `vConsoleCtl` (src/main.c lines 56-78) -/

/-- The three workload tasks the console can address. -/
inductive CtlTask where
  | ctlL
  | ctlM
  | ctlH
deriving DecidableEq

/-- A Control Surface operation issued by the console task. -/
inductive CtlOp where
  | suspendOne (t : CtlTask)
  | resumeOne (t : CtlTask)
  | suspendAllOp
  | resumeAllOp
  | notifyOp (t : CtlTask)
deriving DecidableEq

/-- The `switch (c)` of `vConsoleCtl` (src/main.c lines 63-74): maps a
pressed key to the scheduler operation it performs; any other key does
nothing. -/
def consoleDispatch (c : Char) : Option CtlOp :=
  if c = 'm' then some (CtlOp.suspendOne CtlTask.ctlM)
  else if c = 'n' then some (CtlOp.resumeOne CtlTask.ctlM)
  else if c = 's' then some (CtlOp.suspendOne CtlTask.ctlL)
  else if c = 'd' then some (CtlOp.resumeOne CtlTask.ctlL)
  else if c = 'a' then some (CtlOp.suspendOne CtlTask.ctlH)
  else if c = 'f' then some (CtlOp.resumeOne CtlTask.ctlH)
  else if c = 'q' then some CtlOp.suspendAllOp
  else if c = 'w' then some CtlOp.resumeAllOp
  else if c = 'e' then some (CtlOp.notifyOp CtlTask.ctlH)
  else none

/-- The nine keys the console switch recognises, in source order. -/
def cmdChars : List Char := ['m', 'n', 's', 'd', 'a', 'f', 'q', 'w', 'e']

/-- Base priority of each workload task, from src/main.c lines 207-209. -/
def ctlPrio : CtlTask → Nat
  | CtlTask.ctlL => PRIO_LOW
  | CtlTask.ctlM => PRIO_MEDIUM
  | CtlTask.ctlH => PRIO_HIGH

/-! ### Lock creation, from `create_lock` (src/main.c lines 184-197) -/

/-- State of the shared lock right after creation: whether it can be
taken immediately, and whether it carries priority inheritance. -/
structure LockModel where
  available : Bool
  inheritance : Bool
deriving DecidableEq

/-- Modelled from the spec: `xSemaphoreCreateMutex` returns a
priority-inheritance mutex that is initially unlocked (available). -/
def createMutexModel : LockModel := { available := true, inheritance := true }

/-- Modelled from the spec: `xSemaphoreCreateBinary` returns a plain
binary semaphore without inheritance; as the source comment on
src/main.c line 193 records, binary semaphores start empty. -/
def createBinaryModel : LockModel := { available := false, inheritance := false }

/-- `xSemaphoreGive` on a free-standing lock makes it available. -/
def giveLock (l : LockModel) : LockModel := { l with available := true }

/-- `create_lock` (src/main.c lines 184-197): with `USE_MUTEX` set it
creates a mutex; otherwise it creates a binary semaphore and gives it
once so it behaves like an unlocked lock. -/
def create_lock (useMutex : Bool) : LockModel :=
  if useMutex then createMutexModel else giveLock createBinaryModel

/-- A `take` on a freshly created lock succeeds iff it is available. -/
def firstTakeSucceeds (l : LockModel) : Bool := l.available

/-! ### Startup creation check, from `main` (src/main.c lines 206-212)

`BaseType_t` is a 32-bit signed integer on this port; we model its
values as natural numbers below `2^32` (two's complement). -/

/-- `pdPASS` (= `pdTRUE` = 1). -/
def pdPASS : Nat := 1

/-- `errCOULD_NOT_ALLOCATE_REQUIRED_MEMORY` (= -1), the value
`xTaskCreate` returns on failure, as an unsigned 32-bit word. -/
def errCouldNotAllocate : Nat := 2 ^ 32 - 1

/-- The accumulation in `main`: `ok = pdPASS; ok &= r1; ...; ok &= r5;`
(src/main.c lines 206-211), folding bitwise AND over the five task
creation results. -/
def creationAccum (rs : List Nat) : Nat := rs.foldl Nat.land pdPASS

/-- The guard `configASSERT(ok == pdPASS)` (src/main.c line 212):
`true` means the assertion passes and the scheduler is started. -/
def creationAssertPasses (rs : List Nat) : Bool :=
  creationAccum rs == pdPASS

/-! ### Notification channel

Modelled from the spec: a one-slot saturating pending flag per task;
`notify` sets it, `await` consumes it when set, duplicate notifies
collapse.  The kernel code implementing `xTaskNotifyGive` is not part
of this repository's sources. -/

/-- An operation touching task H's notification channel: the console's
`xTaskNotifyGive` (key `e`), a notification wait by the target, or any
unrelated activity. -/
inductive ChanOp where
  | notifyOp
  | awaitOp
  | idleOp
deriving DecidableEq

/-- The channel state: the single pending flag, plus a counter of how
many notifications the target has observed (instrumentation). -/
structure ChanState where
  pending : Bool
  observed : Nat
deriving DecidableEq

/-- Modelled from the spec: `notify` sets the pending flag (saturating,
not counted); `await` clears the flag and observes one notification if
it is set; unrelated activity leaves the channel alone. -/
def chanApply (s : ChanState) : ChanOp → ChanState
  | ChanOp.notifyOp => { s with pending := true }
  | ChanOp.awaitOp =>
    if s.pending then { pending := false, observed := s.observed + 1 } else s
  | ChanOp.idleOp => s

/-- Run a sequence of channel operations from a starting state. -/
def chanRun (ops : List ChanOp) (s : ChanState) : ChanState :=
  ops.foldl chanApply s

/-- The channel as created: no notification pending, none observed. -/
def chanInit : ChanState := { pending := false, observed := 0 }

/-! ### Per-task interpreter, for the frame property of the event key -/

/-- Observable state of one task while running its script: its pending
notification flag, everything it printed, its accumulated sleep time,
and how many notifications it has consumed. -/
structure TState where
  pending : Bool
  out : List Char
  slept : Nat
  consumed : Nat
deriving DecidableEq

/-- Effect of one action on the task-observable state.  Only
`awaitNotify` ever reads or clears the pending notification flag. -/
def applyAct (a : Action) (s : TState) : TState :=
  match a with
  | Action.delay n => { s with slept := s.slept + n }
  | Action.putc c => { s with out := s.out ++ [c] }
  | Action.awaitNotify => { s with pending := false, consumed := s.consumed + 1 }
  | _ => s

/-- Run a script of actions over the task-observable state. -/
def runScript : List Action → TState → TState
  | [], s => s
  | a :: rest, s => runScript rest (applyAct a s)

/-! ### Inheritance-bound model

Modelled from the spec (sections 4.1, 4.2 and 8): while H is blocked on
the mutex owned by L, the scheduler runs, at each time unit, whichever
of L and M is ready with the higher effective priority; L's remaining
hold time decreases exactly when L runs.  With inheritance, L's
effective priority is raised to H's priority. -/

/-- Does the scheduler pick the lock owner L (effective priority
`lEff`) over the CPU-burning task M (effective priority `mEff`, ready
iff `mReady`) at one instant?  Per the spec, the strictly
higher-effective-priority ready task runs. -/
def schedPicksL (lEff mEff : Nat) (mReady : Bool) : Bool :=
  decide (mEff < lEff) || !mReady

/-- Elapsed time units until L's remaining hold `r` reaches zero,
starting at tick `t`, given a fuel bound: each unit, L makes progress
exactly when the scheduler picks it over M.  Returns `none` if the
fuel runs out before L releases. -/
def elapsedUntilRelease (lEff mEff : Nat) (mReady : Nat → Bool) :
    Nat → Nat → Nat → Option Nat
  | 0, r, _ => if r = 0 then some 0 else none
  | fuel + 1, r, t =>
    if r = 0 then some 0
    else if schedPicksL lEff mEff (mReady t) then
      (elapsedUntilRelease lEff mEff mReady fuel (r - 1) (t + 1)).map (· + 1)
    else
      (elapsedUntilRelease lEff mEff mReady fuel r (t + 1)).map (· + 1)

/-! ### Priority-inheritance mutex state machine

Modelled from the spec (section 4.2): the kernel's mutex implementation
is not part of this repository's sources.  States carry, per task, its
base and effective priority; the mutex carries an optional owner and a
FIFO list of blocked waiters.  `inCS` instruments the critical sections
of the demo tasks: it is set while a task is between a successful
`take` and its `give`. -/

/-- The three workload tasks of the demo. -/
inductive Tid where
  | tL
  | tM
  | tH
deriving DecidableEq

/-- Base priority of each workload task (src/main.c lines 14-16). -/
def prioOf : Tid → Nat
  | Tid.tL => PRIO_LOW
  | Tid.tM => PRIO_MEDIUM
  | Tid.tH => PRIO_HIGH

/-- Scheduler-owned state: priorities, mutex ownership, waiter list and
the critical-section instrumentation flags. -/
structure RTState where
  base : Tid → Nat
  eff : Tid → Nat
  owner : Option Tid
  waiters : List Tid
  inCS : Tid → Bool

/-- Pointwise update of a `Tid → Nat` map. -/
def updN (f : Tid → Nat) (t : Tid) (v : Nat) : Tid → Nat :=
  fun u => if u = t then v else f u

/-- Pointwise update of a `Tid → Bool` map. -/
def updB (f : Tid → Bool) (t : Tid) (v : Bool) : Tid → Bool :=
  fun u => if u = t then v else f u

/-- Maximum effective priority over a list of tasks (0 when empty). -/
def maxEff (eff : Tid → Nat) : List Tid → Nat
  | [] => 0
  | w :: ws => max (eff w) (maxEff eff ws)

/-- Modelled from the spec: a successful `take` on a free mutex makes
the caller owner (its ceiling starts at its own base priority) and
enters its critical section. -/
def acquire (t : Tid) (s : RTState) : RTState :=
  { s with
    owner := some t
    eff := updN s.eff t (s.base t)
    inCS := updB s.inCS t true }

/-- Modelled from the spec: a `take` on a held mutex appends the caller
to the waiter list and recomputes the owner's effective priority as the
maximum of its base priority and the waiters' effective priorities. -/
def enqueue (t o : Tid) (s : RTState) : RTState :=
  let ws := s.waiters ++ [t]
  { s with
    waiters := ws
    eff := updN s.eff o (max (s.base o) (maxEff s.eff ws)) }

/-- Select the highest-effective-priority waiter, earliest enqueued on
ties; returns it together with the remaining waiters. -/
def pickMax (eff : Tid → Nat) : List Tid → Option (Tid × List Tid)
  | [] => none
  | w :: ws =>
    match pickMax eff ws with
    | none => some (w, [])
    | some (b, rest) =>
      if eff w < eff b then some (b, w :: rest) else some (w, ws)

/-- Modelled from the spec: `give` restores the releasing task's
effective priority to its base priority and leaves its critical
section; if waiters remain, the highest-priority earliest waiter
becomes owner with a ceiling recomputed from the remaining waiters,
otherwise the mutex becomes free. -/
def release (t : Tid) (s : RTState) : RTState :=
  let eff1 := updN s.eff t (s.base t)
  let cs1 := updB s.inCS t false
  match pickMax s.eff s.waiters with
  | none =>
    { s with owner := none, eff := eff1, inCS := cs1 }
  | some (w, rest) =>
    { s with
      owner := some w
      waiters := rest
      eff := updN eff1 w (max (s.base w) (maxEff eff1 rest))
      inCS := updB cs1 w true }

/-- The state before the scheduler starts: mutex free, every task at
its base priority, nobody in a critical section. -/
def initState : RTState :=
  { base := prioOf
    eff := prioOf
    owner := none
    waiters := []
    inCS := fun _ => false }

/-- One transition of the mutex protocol, indexed by the acting task: a
take that finds the mutex free, a take that blocks behind the owner, or
a give by the owner.  A task attempts a take only when it is not
already inside its critical section or waiting (the demo tasks strictly
alternate take and give, and the spec rejects recursive takes). -/
inductive MStep : Tid → RTState → RTState → Prop where
  | takeFree : ∀ s t, s.owner = none → s.inCS t = false → t ∉ s.waiters →
      MStep t s (acquire t s)
  | takeBlocked : ∀ s t o, s.owner = some o → t ≠ o → s.inCS t = false →
      t ∉ s.waiters → MStep t s (enqueue t o s)
  | giveOwn : ∀ s t, s.owner = some t → MStep t s (release t s)

/-- States reachable from startup by any interleaving of take/give
events of the demo tasks. -/
inductive Reachable : RTState → Prop where
  | init : Reachable initState
  | step : ∀ s s' t, Reachable s → MStep t s s' → Reachable s'

/-- States reachable when task M never performs a lock operation, which
is what `vTaskM` does (src/main.c lines 159-182). -/
inductive ReachableNoM : RTState → Prop where
  | init : ReachableNoM initState
  | step : ∀ s s' t, ReachableNoM s → MStep t s s' → t ≠ Tid.tM →
      ReachableNoM s'

/-- The inductive invariant of the mutex protocol. -/
structure Inv (s : RTState) : Prop where
  cs_iff : ∀ t, s.inCS t = true ↔ s.owner = some t
  free_no_wait : s.owner = none → s.waiters = []
  owner_not_waiter : ∀ t, t ∈ s.waiters → s.owner ≠ some t
  nonowner_base : ∀ t, s.owner ≠ some t → s.eff t = s.base t
  base_fixed : ∀ t, s.base t = prioOf t
  wait_nodup : s.waiters.Nodup

/-- Modelled from the spec: the outcome of a blocking `take`, given the
wait `w` until the mutex is actually acquired.  With a finite timeout
the call returns `pdPASS` iff the mutex was acquired within the
timeout; with `portMAX_DELAY` the call blocks until the mutex is
acquired and can only return `pdPASS`. -/
def takeReturnsPass : Timeout → Nat → Bool
  | Timeout.portMAX_DELAY, _ => true
  | Timeout.ticks n, w => decide (w ≤ n)

/-! ### Lemmas about the mutex state machine -/

theorem updN_same (f : Tid → Nat) (t : Tid) (v : Nat) : updN f t v t = v := by
  simp [updN]

theorem updN_ne (f : Tid → Nat) (t : Tid) (v : Nat) {u : Tid} (h : u ≠ t) :
    updN f t v u = f u := by
  simp [updN, h]

theorem updB_same (f : Tid → Bool) (t : Tid) (v : Bool) : updB f t v t = v := by
  simp [updB]

theorem updB_ne (f : Tid → Bool) (t : Tid) (v : Bool) {u : Tid} (h : u ≠ t) :
    updB f t v u = f u := by
  simp [updB, h]

theorem pickMax_eq_none {eff : Tid → Nat} {l : List Tid}
    (h : pickMax eff l = none) : l = [] := by
  cases l with
  | nil => rfl
  | cons a as =>
    exfalso
    cases hrec : pickMax eff as with
    | none => simp [pickMax, hrec] at h
    | some p =>
      obtain ⟨b, r⟩ := p
      simp only [pickMax, hrec] at h
      split at h <;> simp at h

theorem pickMax_perm (eff : Tid → Nat) :
    ∀ (l : List Tid) (w : Tid) (rest : List Tid),
      pickMax eff l = some (w, rest) → List.Perm (w :: rest) l := by
  intro l
  induction l with
  | nil => intro w rest h; simp [pickMax] at h
  | cons a as ih =>
    intro w rest h
    cases hrec : pickMax eff as with
    | none =>
      simp only [pickMax, hrec] at h
      obtain ⟨rfl, rfl⟩ : a = w ∧ ([] : List Tid) = rest := by
        injection h with h1
        injection h1 with h2 h3
        exact ⟨h2, h3⟩
      have : as = [] := pickMax_eq_none hrec
      subst this
      exact List.Perm.refl _
    | some p =>
      obtain ⟨b, r⟩ := p
      simp only [pickMax, hrec] at h
      split at h
      · obtain ⟨rfl, rfl⟩ : b = w ∧ a :: r = rest := by
          injection h with h1
          injection h1 with h2 h3
          exact ⟨h2, h3⟩
        exact (List.Perm.swap a b r).trans ((ih b r hrec).cons a)
      · obtain ⟨rfl, rfl⟩ : a = w ∧ as = rest := by
          injection h with h1
          injection h1 with h2 h3
          exact ⟨h2, h3⟩
        exact List.Perm.refl _

theorem inv_init : Inv initState := by
  refine ⟨?_, ?_, ?_, ?_, ?_, ?_⟩
  · intro t; simp [initState]
  · intro _; rfl
  · intro t ht; simp [initState] at ht
  · intro t _; rfl
  · intro t; rfl
  · simp [initState]

theorem inv_acquire (s : RTState) (t : Tid) (hinv : Inv s)
    (hfree : s.owner = none) : Inv (acquire t s) := by
  have hwe : s.waiters = [] := hinv.free_no_wait hfree
  refine ⟨?_, ?_, ?_, ?_, ?_, ?_⟩
  · intro u
    by_cases h : u = t
    · subst h; simp [acquire, updB]
    · have h1 : s.inCS u = false := by
        have h2 := hinv.cs_iff u
        rw [hfree] at h2
        simpa using h2
      simp [acquire, updB, h, h1, Ne.symm h]
  · intro h; simp [acquire] at h
  · intro u hu; simp [acquire, hwe] at hu
  · intro u hne
    by_cases h : u = t
    · subst h; simp [acquire] at hne
    · simp only [acquire]
      rw [updN_ne _ _ _ h]
      exact hinv.nonowner_base u (by rw [hfree]; simp)
  · intro u; simp [acquire, hinv.base_fixed]
  · simpa [acquire] using hinv.wait_nodup

theorem inv_enqueue (s : RTState) (t o : Tid) (hinv : Inv s)
    (hown : s.owner = some o) (hne : t ≠ o) (hw : t ∉ s.waiters) :
    Inv (enqueue t o s) := by
  refine ⟨?_, ?_, ?_, ?_, ?_, ?_⟩
  · intro u; simpa [enqueue] using hinv.cs_iff u
  · intro h; rw [enqueue] at h; simp [hown] at h
  · intro u hu
    simp only [enqueue, List.mem_append, List.mem_singleton] at hu
    rcases hu with hu | rfl
    · simpa [enqueue] using hinv.owner_not_waiter u hu
    · simp only [enqueue, hown]
      intro h
      exact hne (Option.some.inj h).symm
  · intro u hne'
    simp only [enqueue, hown] at hne' ⊢
    have huo : u ≠ o := fun h => hne' (by rw [h])
    rw [updN_ne _ _ _ huo]
    exact hinv.nonowner_base u (by rw [hown]; simpa using fun h => huo h.symm)
  · intro u; simp [enqueue, hinv.base_fixed]
  · simp only [enqueue, List.nodup_append, List.nodup_cons, List.nodup_nil]
    refine ⟨hinv.wait_nodup, by simp, ?_⟩
    intro x hx
    simp only [List.mem_singleton]
    exact fun h => hw (h ▸ hx)

theorem inv_release (s : RTState) (t : Tid) (hinv : Inv s)
    (hown : s.owner = some t) : Inv (release t s) := by
  cases hp : pickMax s.eff s.waiters with
  | none =>
    have hwe : s.waiters = [] := pickMax_eq_none hp
    refine ⟨?_, ?_, ?_, ?_, ?_, ?_⟩ <;> simp only [release, hp]
    · intro u
      by_cases h : u = t
      · subst h; simp [updB]
      · have h1 : s.inCS u = true ↔ s.owner = some u := hinv.cs_iff u
        rw [hown] at h1
        have h2 : s.inCS u = false := by
          simpa [Ne.symm h] using h1
        simp [updB, h, h2]
    · intro _; exact hwe
    · intro u hu; rw [hwe] at hu; simp at hu
    · intro u _
      by_cases h : u = t
      · subst h; simp [updN]
      · rw [updN_ne _ _ _ h]
        exact hinv.nonowner_base u (by rw [hown]; simpa using fun h2 => h h2.symm)
    · intro u; exact hinv.base_fixed u
    · exact hinv.wait_nodup
  | some p =>
    obtain ⟨w, rest⟩ := p
    have hperm : List.Perm (w :: rest) s.waiters := pickMax_perm _ _ _ _ hp
    have hwmem : w ∈ s.waiters := hperm.subset (List.mem_cons_self w rest)
    have hrsub : ∀ u ∈ rest, u ∈ s.waiters := fun u hu =>
      hperm.subset (List.mem_cons_of_mem w hu)
    have hnodup' : (w :: rest).Nodup := hperm.nodup_iff.mpr hinv.wait_nodup
    have hwrest : w ∉ rest := (List.nodup_cons.mp hnodup').1
    have hrnodup : rest.Nodup := (List.nodup_cons.mp hnodup').2
    have hwt : w ≠ t := fun h => hinv.owner_not_waiter w hwmem (by rw [hown, h])
    refine ⟨?_, ?_, ?_, ?_, ?_, ?_⟩ <;> simp only [release, hp]
    · intro u
      by_cases huw : u = w
      · subst huw; simp [updB]
      · rw [updB_ne _ _ _ huw]
        by_cases hut : u = t
        · subst hut; simp [updB, Ne.symm huw]
        · rw [updB_ne _ _ _ hut]
          have h1 : s.inCS u = true ↔ s.owner = some u := hinv.cs_iff u
          rw [hown] at h1
          have h2 : s.inCS u = false := by simpa [Ne.symm hut] using h1
          simp [h2, Ne.symm huw]
    · intro h; exact Option.noConfusion h
    · intro u hu h
      exact hwrest ((Option.some.inj h) ▸ hu)
    · intro u hne'
      have huw : u ≠ w := fun h => hne' (by rw [h])
      rw [updN_ne _ _ _ huw]
      by_cases hut : u = t
      · subst hut; simp [updN]
      · rw [updN_ne _ _ _ hut]
        exact hinv.nonowner_base u (by rw [hown]; simpa using fun h2 => hut h2.symm)
    · intro u; exact hinv.base_fixed u
    · exact hrnodup

theorem inv_step {s s' : RTState} {t : Tid} (hinv : Inv s)
    (h : MStep t s s') : Inv s' := by
  cases h with
  | takeFree s t hfree hcs hw => exact inv_acquire s t hinv hfree
  | takeBlocked s t o hown hne hcs hw => exact inv_enqueue s t o hinv hown hne hw
  | giveOwn s t hown => exact inv_release s t hinv hown

theorem inv_reach {s : RTState} (h : Reachable s) : Inv s := by
  induction h with
  | init => exact inv_init
  | step s s' t hr hstep ih => exact inv_step ih hstep

theorem reachNoM_inv {s : RTState} (h : ReachableNoM s) :
    s.owner ≠ some Tid.tM ∧ Tid.tM ∉ s.waiters := by
  induction h with
  | init => simp [initState]
  | step s s' t hr hstep ht ih =>
    cases hstep with
    | takeFree s t hfree hcs hw =>
      refine ⟨?_, ?_⟩
      · exact fun h => ht (Option.some.inj h)
      · simpa [acquire] using ih.2
    | takeBlocked s t o hown hne hcs hw =>
      refine ⟨?_, ?_⟩
      · simpa [enqueue] using ih.1
      · simp only [enqueue, List.mem_append, List.mem_singleton]
        rintro (hm | hm)
        · exact ih.2 hm
        · exact ht hm.symm
    | giveOwn s t hown =>
      cases hp : pickMax s.eff s.waiters with
      | none =>
        refine ⟨?_, ?_⟩ <;> simp only [release, hp]
        · exact fun h => Option.noConfusion h
        · exact ih.2
      | some p =>
        obtain ⟨w, rest⟩ := p
        have hperm : List.Perm (w :: rest) s.waiters := pickMax_perm _ _ _ _ hp
        refine ⟨?_, ?_⟩ <;> simp only [release, hp]
        · intro h
          exact ih.2 (hperm.subset (by rw [← Option.some.inj h]; exact List.mem_cons_self w rest))
        · intro hm
          exact ih.2 (hperm.subset (List.mem_cons_of_mem w hm))

/-! ### Lemmas about action traces -/

theorem usesLock_append (l1 l2 : List Action) :
    usesLock (l1 ++ l2) = (usesLock l1 || usesLock l2) := by
  simp [usesLock]

theorem usesLock_M_body : usesLock vTaskM_body = false := by decide

theorem all_cpuOrSleep_M_body : vTaskM_body.all cpuOrSleep = true := by decide

theorem usesLock_traceM (n : Nat) : usesLock (traceM n) = false := by
  induction n with
  | zero => rfl
  | succ m ih =>
    have h : traceM (m + 1) = vTaskM_body ++ traceM m := by
      simp [traceM, List.replicate_succ]
    rw [h, usesLock_append, ih, usesLock_M_body]
    rfl

theorem all_cpuOrSleep_traceM (n : Nat) : (traceM n).all cpuOrSleep = true := by
  induction n with
  | zero => rfl
  | succ m ih =>
    have h : traceM (m + 1) = vTaskM_body ++ traceM m := by
      simp [traceM, List.replicate_succ]
    rw [h, List.all_append, ih, all_cpuOrSleep_M_body]
    rfl

theorem hasAwait_append (l1 l2 : List Action) :
    hasAwait (l1 ++ l2) = (hasAwait l1 || hasAwait l2) := by
  simp [hasAwait]

theorem hasAwait_H_body : hasAwait vTaskH_body = false := by decide

theorem hasAwait_repH (n : Nat) :
    hasAwait ((List.replicate n vTaskH_body).flatten) = false := by
  induction n with
  | zero => rfl
  | succ m ih =>
    have h : (List.replicate (m + 1) vTaskH_body).flatten
        = vTaskH_body ++ (List.replicate m vTaskH_body).flatten := by
      simp [List.replicate_succ]
    rw [h, hasAwait_append, ih, hasAwait_H_body]
    rfl

theorem hasAwait_traceH (n : Nat) : hasAwait (traceH n) = false := by
  have h : hasAwait (traceH n)
      = (isAwait vTaskH_startDelay || hasAwait ((List.replicate n vTaskH_body).flatten)) := by
    simp [traceH, hasAwait]
  rw [h, hasAwait_repH]
  rfl

/-! ### Frame lemmas for the per-task interpreter -/

theorem applyAct_pending (a : Action) (h : isAwait a = false) (s : TState)
    (b : Bool) :
    applyAct a { s with pending := b } = { applyAct a s with pending := b } := by
  cases a with
  | take tm => rfl
  | give => rfl
  | delay n => rfl
  | putc c => rfl
  | busy => rfl
  | logMsg => rfl
  | awaitNotify => simp [isAwait] at h

theorem applyAct_consumed (a : Action) (h : isAwait a = false) (s : TState) :
    (applyAct a s).consumed = s.consumed := by
  cases a with
  | take tm => rfl
  | give => rfl
  | delay n => rfl
  | putc c => rfl
  | busy => rfl
  | logMsg => rfl
  | awaitNotify => simp [isAwait] at h

theorem runScript_pending (l : List Action) :
    ∀ (s : TState) (b : Bool), hasAwait l = false →
      runScript l { s with pending := b } = { runScript l s with pending := b } := by
  induction l with
  | nil => intro s b _; rfl
  | cons a rest ih =>
    intro s b h
    have h1 : isAwait a = false ∧ hasAwait rest = false := by
      simpa [hasAwait] using h
    simp only [runScript]
    rw [applyAct_pending a h1.1 s b]
    exact ih (applyAct a s) b h1.2

theorem runScript_consumed (l : List Action) :
    ∀ s : TState, hasAwait l = false →
      (runScript l s).consumed = s.consumed := by
  induction l with
  | nil => intro s _; rfl
  | cons a rest ih =>
    intro s h
    have h1 : isAwait a = false ∧ hasAwait rest = false := by
      simpa [hasAwait] using h
    simp only [runScript]
    rw [ih (applyAct a s) h1.2]
    exact applyAct_consumed a h1.1 s

/-! ### Lemmas about the notification channel -/

theorem chanRun_append (l1 l2 : List ChanOp) (s : ChanState) :
    chanRun (l1 ++ l2) s = chanRun l2 (chanRun l1 s) := by
  simp [chanRun]

theorem chanRun_noAwait (ops : List ChanOp) :
    ∀ k : Nat, ChanOp.awaitOp ∉ ops →
      chanRun ops { pending := true, observed := k }
        = { pending := true, observed := k } := by
  induction ops with
  | nil => intro k _; rfl
  | cons op rest ih =>
    intro k h
    have h1 : ChanOp.awaitOp ≠ op ∧ ChanOp.awaitOp ∉ rest := by
      simpa [List.mem_cons, not_or] using h
    have h2 : chanApply { pending := true, observed := k } op
        = { pending := true, observed := k } := by
      cases op with
      | notifyOp => rfl
      | awaitOp => exact absurd rfl h1.1
      | idleOp => rfl
    show chanRun rest (chanApply { pending := true, observed := k } op) = _
    rw [h2]
    exact ih k h1.2

theorem chanRun_notifies (n : Nat) (h : 1 ≤ n) :
    chanRun (List.replicate n ChanOp.notifyOp) chanInit
      = { pending := true, observed := 0 } := by
  cases n with
  | zero => exact absurd h (by decide)
  | succ m =>
    have h1 : List.replicate (m + 1) ChanOp.notifyOp
        = ChanOp.notifyOp :: List.replicate m ChanOp.notifyOp := by
      simp [List.replicate_succ]
    rw [h1]
    show chanRun (List.replicate m ChanOp.notifyOp)
      (chanApply chanInit ChanOp.notifyOp) = _
    exact chanRun_noAwait _ 0 (by simp [List.mem_replicate])

/-! ### Lemma for the inheritance bound -/

theorem picksL_inherit (b : Bool) :
    schedPicksL PRIO_HIGH PRIO_MEDIUM b = true := by
  cases b <;> rfl

theorem elapsed_with_inheritance (mReady : Nat → Bool) :
    ∀ r t : Nat,
      elapsedUntilRelease PRIO_HIGH PRIO_MEDIUM mReady r r t = some r := by
  intro r
  induction r with
  | zero => intro t; rfl
  | succ m ih =>
    intro t
    simp only [elapsedUntilRelease]
    rw [if_neg (Nat.succ_ne_zero m), if_pos (picksL_inherit (mReady t))]
    have h : m + 1 - 1 = m := rfl
    rw [h, ih (t + 1)]
    rfl

/-! ### Claim theorems -/

/-- Claim C1 (mutual exclusion): in every reachable state of the mutex
protocol, no two distinct tasks are simultaneously inside the critical
section bracketed by a successful `take` and the following `give`; in
particular L and H never both hold `xResLock`. -/
theorem C1_mutual_exclusion :
    ∀ s : RTState, Reachable s → ∀ t u : Tid, t ≠ u →
      ¬(s.inCS t = true ∧ s.inCS u = true) := by
  intro s hs t u hne hcs
  obtain ⟨ht, hu⟩ := hcs
  have hinv := inv_reach hs
  have h1 := (hinv.cs_iff t).mp ht
  have h2 := (hinv.cs_iff u).mp hu
  rw [h1] at h2
  exact hne (Option.some.inj h2)

/-- Witness for C1: in the concrete reachable state where L has just
taken the free lock, L and H are not both in their critical sections. -/
theorem C1_mutual_exclusion_witness :
    ¬((acquire Tid.tL initState).inCS Tid.tL = true ∧
      (acquire Tid.tL initState).inCS Tid.tH = true) :=
  C1_mutual_exclusion (acquire Tid.tL initState)
    (Reachable.step initState (acquire Tid.tL initState) Tid.tL Reachable.init
      (MStep.takeFree initState Tid.tL rfl rfl (by simp [initState])))
    Tid.tL Tid.tH (by decide)

/-- Claim C2 counterexample: the claim computes L's hold as 75
characters times 10 units.  On the code, `bigMsg` has 72 characters,
each followed by a `HOLD_DELAY_PER_CHAR_MS + 100 = 110` unit delay, and
`vTaskL` sleeps another 100 units after taking the lock, so the hold is
8020 units, not 750 = 75 × 10. -/
theorem C2_counterexample :
    bigMsg.length = 72 ∧ lockHoldDuration vTaskL_body = 8020 ∧
    ¬(bigMsg.length = 75 ∧ lockHoldDuration vTaskL_body = 75 * 10) := by
  refine ⟨by decide, by decide, by decide⟩

/-- Claim C2 as amended: with inheritance enabled, L holds the mutex
for a simulated 100 + 72 × 110 = 8020 time units (a 100-unit initial
sleep plus 72 message characters at `HOLD_DELAY_PER_CHAR_MS + 100`
units each), and H, blocked on the mutex for L's whole remaining hold,
waits exactly that long regardless of M's CPU activity, because L's
inherited effective priority `PRIO_HIGH` beats M's `PRIO_MEDIUM` at
every scheduling instant. -/
theorem C2_inheritance_bound :
    lockHoldDuration vTaskL_body
      = 100 + bigMsg.length * (HOLD_DELAY_PER_CHAR_MS + 100) ∧
    lockHoldDuration vTaskL_body = 8020 ∧
    (∀ (mReady : Nat → Bool) (r t : Nat),
      elapsedUntilRelease PRIO_HIGH PRIO_MEDIUM mReady r r t = some r) := by
  refine ⟨by decide, by decide, ?_⟩
  intro mReady r t
  exact elapsed_with_inheritance mReady r t

/-- Claim C3: the accumulation `ok &= xTaskCreate(...)` in `main`
(src/main.c lines 206-212) fails to detect a failed task creation:
`xTaskCreate` reports failure with
`errCOULD_NOT_ALLOCATE_REQUIRED_MEMORY` (-1, all bits set), and
bitwise-ANDing it into `ok = pdPASS` leaves `ok == pdPASS`, so
`configASSERT(ok == pdPASS)` passes and the scheduler is started even
though a creation failed. -/
theorem C3_creation_check_misses_failure :
    creationAssertPasses
      [errCouldNotAllocate, pdPASS, pdPASS, pdPASS, pdPASS] = true ∧
    errCouldNotAllocate ≠ pdPASS := by
  refine ⟨by decide, by decide⟩

/-- Claim C4 (saturating single-slot notification): any run of one or
more notifies before the target consumes collapses into exactly one
observed notification, and a notify sent while the target is not yet
waiting is still observed at the target's next await. -/
theorem C4_notification_saturates :
    (∀ n : Nat, 1 ≤ n →
      chanRun (List.replicate n ChanOp.notifyOp ++ [ChanOp.awaitOp]) chanInit
        = { pending := false, observed := 1 }) ∧
    (∀ mid : List ChanOp, ChanOp.awaitOp ∉ mid →
      chanRun (ChanOp.notifyOp :: mid ++ [ChanOp.awaitOp]) chanInit
        = { pending := false, observed := 1 }) := by
  constructor
  · intro n hn
    rw [chanRun_append, chanRun_notifies n hn]
    rfl
  · intro mid hmid
    show chanRun (mid ++ [ChanOp.awaitOp]) { pending := true, observed := 0 }
      = { pending := false, observed := 1 }
    rw [chanRun_append, chanRun_noAwait mid 0 hmid]
    rfl

/-- Witness for C4: three notifies then one await observe exactly one
notification, and a notify followed by unrelated activity (including a
duplicate notify) is observed once at the next await. -/
theorem C4_notification_saturates_witness :
    chanRun (List.replicate 3 ChanOp.notifyOp ++ [ChanOp.awaitOp]) chanInit
      = { pending := false, observed := 1 } ∧
    chanRun (ChanOp.notifyOp :: [ChanOp.idleOp, ChanOp.notifyOp]
        ++ [ChanOp.awaitOp]) chanInit
      = { pending := false, observed := 1 } :=
  ⟨C4_notification_saturates.1 3 (by decide),
   C4_notification_saturates.2 [ChanOp.idleOp, ChanOp.notifyOp] (by decide)⟩

/-- Claim C5 (priority restoration): in every reachable state in which
a task holds the mutex, immediately after its `give` the task's
effective priority equals its base priority and it is no longer the
owner, hence is never left elevated by inheritance. -/
theorem C5_priority_restoration :
    ∀ (s : RTState) (t : Tid), Reachable s → s.owner = some t →
      (release t s).eff t = (release t s).base t ∧
      (release t s).owner ≠ some t := by
  intro s t hs hown
  have hinv := inv_reach hs
  cases hp : pickMax s.eff s.waiters with
  | none =>
    constructor
    · simp only [release, hp]
      exact updN_same s.eff t (s.base t)
    · simp only [release, hp]
      exact fun h => Option.noConfusion h
  | some p =>
    obtain ⟨w, rest⟩ := p
    have hperm := pickMax_perm s.eff s.waiters w rest hp
    have hwmem : w ∈ s.waiters := hperm.subset (List.mem_cons_self w rest)
    have hwt : t ≠ w := fun h =>
      hinv.owner_not_waiter w hwmem (by rw [hown, h])
    constructor
    · simp only [release, hp]
      rw [updN_ne _ _ _ hwt, updN_same]
    · simp only [release, hp]
      intro h
      exact hwt (Option.some.inj h).symm

/-- Witness for C5: releasing right after L takes the free lock leaves
L at its base priority and no longer the owner. -/
theorem C5_priority_restoration_witness :
    (release Tid.tL (acquire Tid.tL initState)).eff Tid.tL
      = (release Tid.tL (acquire Tid.tL initState)).base Tid.tL ∧
    (release Tid.tL (acquire Tid.tL initState)).owner ≠ some Tid.tL :=
  C5_priority_restoration (acquire Tid.tL initState) Tid.tL
    (Reachable.step initState (acquire Tid.tL initState) Tid.tL Reachable.init
      (MStep.takeFree initState Tid.tL rfl rfl (by simp [initState])))
    rfl

/-- Claim C6 (mutex policy switch): `create_lock` yields a
priority-inheritance lock exactly when `USE_MUTEX` is set (and a plain
lock without inheritance when clear), and in both configurations the
lock starts available, so the first take succeeds immediately. -/
theorem C6_policy_switch :
    (create_lock USE_MUTEX).inheritance = true ∧
    (create_lock false).inheritance = false ∧
    ∀ b : Bool, firstTakeSucceeds (create_lock b) = true := by
  refine ⟨rfl, rfl, ?_⟩
  intro b
  cases b <;> rfl

/-- Claim C7 (control command mapping): the nine console keys map, in
source order, to suspend/resume of M, L and H, suspend-all, resume-all
and the event notify aimed at H; the nine operations are pairwise
distinct; H is the highest-priority workload task; and every other key
performs no operation. -/
theorem C7_command_mapping :
    cmdChars.map consoleDispatch
      = [some (CtlOp.suspendOne CtlTask.ctlM), some (CtlOp.resumeOne CtlTask.ctlM),
         some (CtlOp.suspendOne CtlTask.ctlL), some (CtlOp.resumeOne CtlTask.ctlL),
         some (CtlOp.suspendOne CtlTask.ctlH), some (CtlOp.resumeOne CtlTask.ctlH),
         some CtlOp.suspendAllOp, some CtlOp.resumeAllOp,
         some (CtlOp.notifyOp CtlTask.ctlH)] ∧
    (cmdChars.map consoleDispatch).Nodup ∧
    (∀ t : CtlTask, ctlPrio t ≤ ctlPrio CtlTask.ctlH) ∧
    (∀ c : Char, c ∉ cmdChars → consoleDispatch c = none) := by
  refine ⟨by decide, by decide, ?_, ?_⟩
  · intro t
    cases t <;> decide
  · intro c hc
    simp only [cmdChars, List.mem_cons, List.not_mem_nil, or_false, not_or] at hc
    obtain ⟨h1, h2, h3, h4, h5, h6, h7, h8, h9⟩ := hc
    simp [consoleDispatch, h1, h2, h3, h4, h5, h6, h7, h8, h9]

/-- Witness for C7: an unmapped key does nothing, and L's priority is
at most H's. -/
theorem C7_command_mapping_witness :
    consoleDispatch 'z' = none ∧ ctlPrio CtlTask.ctlL ≤ ctlPrio CtlTask.ctlH :=
  ⟨C7_command_mapping.2.2.2 'z' (by decide),
   C7_command_mapping.2.2.1 CtlTask.ctlL⟩

/-- Claim C8 (M never touches the resource): every trace of `vTaskM`'s
loop contains no take or give and consists only of CPU bursts and
sleeps, and in every state reachable while M performs no lock
operation, M is neither the owner of the mutex nor among its waiters. -/
theorem C8_M_never_uses_lock :
    (∀ n : Nat, usesLock (traceM n) = false ∧ (traceM n).all cpuOrSleep = true) ∧
    (∀ s : RTState, ReachableNoM s →
      s.owner ≠ some Tid.tM ∧ Tid.tM ∉ s.waiters) := by
  constructor
  · intro n
    exact ⟨usesLock_traceM n, all_cpuOrSleep_traceM n⟩
  · intro s hs
    exact reachNoM_inv hs

/-- Witness for C8: two loop iterations of M touch no lock, and in the
startup state M owns nothing and waits on nothing. -/
theorem C8_M_never_uses_lock_witness :
    usesLock (traceM 2) = false ∧
    (initState.owner ≠ some Tid.tM ∧ Tid.tM ∉ initState.waiters) :=
  ⟨(C8_M_never_uses_lock.1 2).1,
   C8_M_never_uses_lock.2 initState ReachableNoM.init⟩

/-- Claim C9 (unconditional waits): the only `take` in each of
`vTaskL`'s and `vTaskH`'s loop bodies passes `portMAX_DELAY`, and a
take with `portMAX_DELAY` returns `pdPASS` whatever the wait, so the
failure branch of each `pdPASS` check is unreachable. -/
theorem C9_unconditional_waits :
    takeTimeouts vTaskL_body = [Timeout.portMAX_DELAY] ∧
    takeTimeouts vTaskH_body = [Timeout.portMAX_DELAY] ∧
    ∀ w : Nat, takeReturnsPass Timeout.portMAX_DELAY w = true := by
  refine ⟨by decide, by decide, ?_⟩
  intro w
  rfl

/-- Claim C10 (event key never affects H): the `e` key notifies H, but
H's trace contains no notification wait, so the notification is never
consumed and everything H computes — its output, its sleep pattern,
its entire observable state — is the same whatever the value of its
pending-notification flag. -/
theorem C10_event_does_not_affect_H :
    consoleDispatch 'e' = some (CtlOp.notifyOp CtlTask.ctlH) ∧
    (∀ n : Nat, hasAwait (traceH n) = false) ∧
    (∀ (n : Nat) (s : TState) (b : Bool),
      runScript (traceH n) { s with pending := b }
        = { runScript (traceH n) s with pending := b }) ∧
    (∀ (n : Nat) (s : TState), (runScript (traceH n) s).consumed = s.consumed) := by
  refine ⟨by decide, hasAwait_traceH, ?_, ?_⟩
  · intro n s b
    exact runScript_pending (traceH n) s b (hasAwait_traceH n)
  · intro n s
    exact runScript_consumed (traceH n) s (hasAwait_traceH n)

end FreeRTOSDemo
